import Mathlib

/-!
Verification of the chromadb-demo repository against its specification.

The repository consists of tutorial scripts (step2 .. step6) that invoke a
vector-database client library.  The engine behind the client calls (the
collection store, the vector index, persistence) is not part of the
repository's sources, so it is modelled here from the specification's own
component design (sections 2-4 of the spec).  The scripts' call sequences
(step3, step4, step6) are embedded from the sources directly.
-/

namespace ChromaDemo

/-- A vector of rational coordinates stands in for an embedding vector. -/
abbrev Vec := List Rat

/-- Modelled from the spec: an EmbeddingProvider converts a text to a vector;
`none` models a provider failure (network/auth), which the spec surfaces as
`EmbeddingProviderError`. -/
abbrev EmbedFn := String → Option Vec

/-- Modelled from the spec: metadata values are a tagged union of
string/number/bool scalars. -/
inductive MetaVal where
  | str : String → MetaVal
  | num : Rat → MetaVal
  | flag : Bool → MetaVal
deriving DecidableEq

/-- Modelled from the spec: a metadata mapping from string keys to scalars. -/
abbrev Metadata := List (String × MetaVal)

/-- Modelled from the spec: a Record has an id, an optional document, an
embedding vector, and a metadata mapping. -/
structure Record where
  id : String
  document : Option String
  embedding : Vec
  metadata : Metadata
deriving DecidableEq

/-- Modelled from the spec: a Collection has a name, a dimensionality fixed by
the first inserted vector (`none` before any insert), a mutable metadata
mapping, and an insertion-ordered list of Records keyed by id. -/
structure Collection where
  name : String
  dim : Option Nat
  metadata : Metadata
  records : List Record
deriving DecidableEq

/-- Modelled from the spec: the error taxonomy of section 7. -/
inductive StoreError where
  | DimensionMismatch : StoreError
  | DuplicateId : StoreError
  | NotFound : List String → StoreError
  | AlreadyExists : StoreError
  | EmbeddingProviderMismatch : StoreError
  | EmbeddingProviderError : StoreError
  | PersistenceError : StoreError
deriving DecidableEq

/-- Squared Euclidean distance between two vectors of equal dimensionality. -/
def sqDist (v w : Vec) : Rat :=
  (List.zipWith (fun x y => (x - y) * (x - y)) v w).sum

/-- Insert an element into a list sorted ascending on `key`, placing it after
all elements with an equal key, so that earlier insertions win ties. -/
def insertAsc {α : Type} (key : α → Rat) (p : α) : List α → List α
  | [] => [p]
  | q :: rest => if key p < key q then p :: q :: rest else q :: insertAsc key p rest

/-- Stable insertion sort ascending on `key` (ties keep the original order). -/
def sortAsc {α : Type} (key : α → Rat) : List α → List α
  | [] => []
  | p :: rest => insertAsc key p (sortAsc key rest)

theorem insertAsc_perm {α : Type} (key : α → Rat) (p : α) :
    ∀ l : List α, (insertAsc key p l).Perm (p :: l)
  | [] => List.Perm.refl _
  | q :: rest => by
    rw [insertAsc]
    by_cases h : key p < key q
    · rw [if_pos h]
    · rw [if_neg h]
      exact ((insertAsc_perm key p rest).cons q).trans (List.Perm.swap p q rest)

theorem sortAsc_perm {α : Type} (key : α → Rat) :
    ∀ l : List α, (sortAsc key l).Perm l
  | [] => List.Perm.refl _
  | p :: rest =>
    (insertAsc_perm key p (sortAsc key rest)).trans ((sortAsc_perm key rest).cons p)

theorem insertAsc_sorted {α : Type} (key : α → Rat) (p : α) :
    ∀ l : List α, List.Pairwise (fun a b => key a ≤ key b) l →
      List.Pairwise (fun a b => key a ≤ key b) (insertAsc key p l)
  | [], _ => by simp [insertAsc]
  | q :: rest, h => by
    rw [List.pairwise_cons] at h
    rw [insertAsc]
    by_cases hpq : key p < key q
    · rw [if_pos hpq]
      refine List.pairwise_cons.mpr ⟨?_, List.pairwise_cons.mpr ⟨h.1, h.2⟩⟩
      intro b hb
      rcases List.mem_cons.mp hb with rfl | hb
      · exact le_of_lt hpq
      · exact le_trans (le_of_lt hpq) (h.1 b hb)
    · rw [if_neg hpq]
      refine List.pairwise_cons.mpr ⟨?_, insertAsc_sorted key p rest h.2⟩
      intro b hb
      rcases List.mem_cons.mp ((insertAsc_perm key p rest).mem_iff.mp hb) with rfl | hb
      · exact le_of_not_lt hpq
      · exact h.1 b hb

theorem sortAsc_sorted {α : Type} (key : α → Rat) :
    ∀ l : List α, List.Pairwise (fun a b => key a ≤ key b) (sortAsc key l)
  | [] => List.Pairwise.nil
  | p :: rest => insertAsc_sorted key p (sortAsc key rest) (sortAsc_sorted key rest)

theorem sortAsc_length {α : Type} (key : α → Rat) (l : List α) :
    (sortAsc key l).length = l.length :=
  (sortAsc_perm key l).length_eq

/-- Modelled from the spec: run the provider on each text, one vector per
text preserving order; any single failure fails the whole batch. -/
def embedAll (ep : EmbedFn) : List String → Option (List Vec)
  | [] => some []
  | t :: ts =>
    match ep t, embedAll ep ts with
    | some v, some vs => some (v :: vs)
    | _, _ => none

theorem embedAll_length (ep : EmbedFn) :
    ∀ (ts : List String) (vs : List Vec), embedAll ep ts = some vs → vs.length = ts.length
  | [], vs, h => by simp [embedAll] at h; simp [← h]
  | t :: ts, vs, h => by
    rw [embedAll] at h
    cases hv : ep t with
    | none => rw [hv] at h; simp at h
    | some v =>
      rw [hv] at h
      cases hvs : embedAll ep ts with
      | none => rw [hvs] at h; simp at h
      | some vs0 =>
        rw [hvs] at h
        simp only [Option.some.injEq] at h
        simp [← h, embedAll_length ep ts vs0 hvs]

/-- `true` when the vector matches the collection dimensionality; a collection
with no dimensionality yet accepts any vector. -/
def dimOk (dim : Option Nat) (v : Vec) : Bool :=
  match dim with
  | some d => v.length == d
  | none => true

/-- Number of records currently stored. -/
def Collection.count (c : Collection) : Nat := c.records.length

/-- Whether some stored record has the given id. -/
def Collection.hasId (c : Collection) (i : String) : Bool :=
  c.records.any (fun r => r.id == i)

/-- First stored record with the given id, if any. -/
def Collection.findRecord (c : Collection) (i : String) : Option Record :=
  c.records.find? (fun r => r.id == i)

/-- Append a record, fixing the dimensionality to its vector length. -/
def Collection.insertFresh (c : Collection) (r : Record) : Collection :=
  { c with dim := some r.embedding.length, records := c.records ++ [r] }

/-- A freshly created collection: no dimensionality, no records. -/
def Collection.mkEmpty (name : String) (meta : Metadata) : Collection :=
  ⟨name, none, meta, []⟩

/-- `true` when every listed id is absent from the collection and the listed
ids are pairwise distinct (ids are unique within a Collection). -/
def freshIds (c : Collection) : List String → Bool
  | [] => true
  | i :: rest => !(c.hasId i) && !(rest.contains i) && freshIds c rest

/-- Insert the already-embedded batch one record at a time, checking each
vector against the (possibly just fixed) dimensionality. -/
def addVecs : Collection → List ((String × String × Metadata) × Vec) →
    Except StoreError Collection
  | c, [] => .ok c
  | c, (it, v) :: rest =>
    if dimOk c.dim v then
      addVecs (c.insertFresh ⟨it.1, some it.2.1, v, it.2.2⟩) rest
    else .error .DimensionMismatch

/-- Modelled from the spec: `add(ids, documents, metadatas)` fails with
`DuplicateId` if any id already exists, embeds the documents through the
EmbeddingProvider (failure surfaces as `EmbeddingProviderError` and mutates
nothing), and stores each record subject to the dimensionality invariant.
The parallel id/document/metadata sequences are passed as one list of
triples. -/
def Collection.add (c : Collection) (ep : EmbedFn)
    (items : List (String × String × Metadata)) : Except StoreError Collection :=
  if !(freshIds c (items.map (fun it => it.1))) then .error .DuplicateId
  else
    match embedAll ep (items.map (fun it => it.2.1)) with
    | none => .error .EmbeddingProviderError
    | some vs => addVecs c (items.zip vs)

/-- Replace every record carrying the given id using `f`, in place. -/
def replaceRecord (records : List Record) (i : String) (f : Record → Record) :
    List Record :=
  records.map (fun r => if r.id == i then f r else r)

/-- Modelled from the spec: single-id upsert.  An existing id is replaced in
place, discarding its prior document/embedding/metadata except for fields
omitted in the call, which retain their prior values; a fresh id is inserted.
A fresh id with no document cannot be embedded and fails with `NotFound`. -/
def Collection.upsertOne (c : Collection) (ep : EmbedFn) (i : String)
    (doc? : Option String) (meta? : Option Metadata) : Except StoreError Collection :=
  match c.findRecord i with
  | some _ =>
    match doc? with
    | some doc =>
      match ep doc with
      | none => .error .EmbeddingProviderError
      | some v =>
        if dimOk c.dim v then
          .ok { c with records :=
            replaceRecord c.records i (fun r => ⟨i, some doc, v, meta?.getD r.metadata⟩) }
        else .error .DimensionMismatch
    | none =>
      .ok { c with records :=
        replaceRecord c.records i (fun r => { r with metadata := meta?.getD r.metadata }) }
  | none =>
    match doc? with
    | none => .error (.NotFound [i])
    | some doc =>
      match ep doc with
      | none => .error .EmbeddingProviderError
      | some v =>
        if dimOk c.dim v then
          .ok (c.insertFresh ⟨i, some doc, v, meta?.getD []⟩)
        else .error .DimensionMismatch

/-- Modelled from the spec: batch upsert, applied item by item. -/
def upsertLoop (ep : EmbedFn) :
    Collection → List (String × Option String × Option Metadata) →
    Except StoreError Collection
  | c, [] => .ok c
  | c, it :: rest =>
    match c.upsertOne ep it.1 it.2.1 it.2.2 with
    | .error e => .error e
    | .ok c' => upsertLoop ep c' rest

/-- Modelled from the spec: `delete(ids)` removes the listed ids; missing ids
are silently ignored. -/
def Collection.delete (c : Collection) (ids : List String) : Collection :=
  { c with records := c.records.filter (fun r => !(ids.contains r.id)) }

/-- Modelled from the spec: `get(ids?)` returns all records, or the requested
ones, failing with `NotFound` listing the missing ids. -/
def Collection.get (c : Collection) (ids? : Option (List String)) :
    Except StoreError (List Record) :=
  match ids? with
  | none => .ok c.records
  | some ids =>
    match ids.filter (fun i => !(c.hasId i)) with
    | [] => .ok (ids.filterMap (fun i => c.findRecord i))
    | missing => .error (.NotFound missing)

/-- Result of a query for one query text: parallel sequences of ids,
documents, metadatas and distances, ordered ascending by distance. -/
structure QueryResult where
  ids : List String
  documents : List (Option String)
  metadatas : List Metadata
  distances : List Rat
deriving DecidableEq

/-- All records paired with their distance to the query vector, sorted
ascending by distance (linear scan, ties broken by insertion order). -/
def Collection.rankAll (c : Collection) (qv : Vec) : List (Record × Rat) :=
  sortAsc (fun pr => pr.2) (c.records.map (fun r => (r, sqDist qv r.embedding)))

/-- Modelled from the spec: the `n` nearest records for one query vector, as
parallel sequences ordered ascending by distance; `n` larger than the
collection size simply returns everything. -/
def Collection.query1 (c : Collection) (qv : Vec) (n : Nat) : QueryResult :=
  let top := (c.rankAll qv).take n
  ⟨top.map (fun pr => pr.1.id), top.map (fun pr => pr.1.document),
   top.map (fun pr => pr.1.metadata), top.map (fun pr => pr.2)⟩

/-- Modelled from the spec: `query(query_texts, n_results)` embeds each query
text, then returns the nearest records per text; a provider failure surfaces
as `EmbeddingProviderError`. -/
def Collection.query (c : Collection) (ep : EmbedFn) (texts : List String)
    (n : Nat) : Except StoreError (List QueryResult) :=
  match embedAll ep texts with
  | none => .error .EmbeddingProviderError
  | some qvs => .ok (qvs.map (fun qv => c.query1 qv n))

/-- Modelled from the spec: the VectorIndex of one collection, holding its
vectors with a fixed dimensionality. -/
structure VectorIndex where
  dim : Option Nat
  entries : List (String × Vec)
deriving DecidableEq

/-- The empty index: no dimensionality, no entries. -/
def VectorIndex.empty : VectorIndex := ⟨none, []⟩

/-- Modelled from the spec: `insert(id, vector)` fails with
`DimensionMismatch` on a wrong-dimensionality vector. -/
def VectorIndex.insert (ix : VectorIndex) (i : String) (v : Vec) :
    Except StoreError VectorIndex :=
  if dimOk ix.dim v then .ok ⟨some v.length, ix.entries ++ [(i, v)]⟩
  else .error .DimensionMismatch

/-- Modelled from the spec: `remove(id)` drops the entry for that id. -/
def VectorIndex.remove (ix : VectorIndex) (i : String) : VectorIndex :=
  ⟨ix.dim, ix.entries.filter (fun e => e.1 != i)⟩

/-- Modelled from the spec: `nearest(query_vector, k)` returns an ordered
sequence of (id, distance) pairs, ascending distance, length at most `k`
(empty index gives an empty sequence). -/
def VectorIndex.nearest (ix : VectorIndex) (q : Vec) (k : Nat) :
    List (String × Rat) :=
  (sortAsc (fun e => e.2) (ix.entries.map (fun e => (e.1, sqDist q e.2)))).take k

/-- Modelled from the spec: a StoreCatalog owns the set of collections. -/
structure StoreCatalog where
  collections : List Collection
deriving DecidableEq

/-- Modelled from the spec: `get_collection(name)` fails with `NotFound` if
the name is absent. -/
def StoreCatalog.getCollection (cat : StoreCatalog) (name : String) :
    Except StoreError Collection :=
  match cat.collections.find? (fun c => c.name == name) with
  | some c => .ok c
  | none => .error (.NotFound [name])

/-- Modelled from the spec: `create_collection(name, metadata?)` fails with
`AlreadyExists` if the name is taken. -/
def StoreCatalog.createCollection (cat : StoreCatalog) (name : String)
    (meta : Metadata) : Except StoreError StoreCatalog :=
  if cat.collections.any (fun c => c.name == name) then .error .AlreadyExists
  else .ok ⟨cat.collections ++ [Collection.mkEmpty name meta]⟩

/-- Modelled from the spec: `get_or_create_collection` never fails on
existence. -/
def StoreCatalog.getOrCreate (cat : StoreCatalog) (name : String)
    (meta : Metadata) : StoreCatalog × Collection :=
  match cat.collections.find? (fun c => c.name == name) with
  | some c => (cat, c)
  | none =>
    let c := Collection.mkEmpty name meta
    (⟨cat.collections ++ [c]⟩, c)

/-- Modelled from the spec: `delete_collection(name)` removes the collection
and all its records, failing with `NotFound` if absent. -/
def StoreCatalog.deleteCollection (cat : StoreCatalog) (name : String) :
    Except StoreError StoreCatalog :=
  if cat.collections.any (fun c => c.name == name) then
    .ok ⟨cat.collections.filter (fun c => c.name != name)⟩
  else .error (.NotFound [name])

/-- Modelled from the spec: `modify(name?, metadata?)` renames the collection
and/or replaces its metadata mapping (full replace, not merge); renaming onto
a name already taken by another collection fails with `AlreadyExists`. -/
def StoreCatalog.modifyCollection (cat : StoreCatalog) (oldName : String)
    (newName : Option String) (newMeta : Option Metadata) :
    Except StoreError StoreCatalog :=
  match cat.collections.find? (fun c => c.name == oldName) with
  | none => .error (.NotFound [oldName])
  | some _ =>
    let target := newName.getD oldName
    if target != oldName && cat.collections.any (fun c => c.name == target) then
      .error .AlreadyExists
    else
      .ok ⟨cat.collections.map (fun c =>
        if c.name == oldName then
          { c with name := target, metadata := newMeta.getD c.metadata }
        else c)⟩

/-- Modelled from the spec: the persisted layout — a manifest holding each
collection's name, dimensionality and metadata, plus per-collection record
files keyed by collection name. -/
structure DiskStore where
  manifest : List (String × Option Nat × Metadata)
  recordFiles : List (String × List Record)
deriving DecidableEq

/-- Modelled from the spec: persist a catalog as manifest plus record files. -/
def saveCatalog (cat : StoreCatalog) : DiskStore :=
  ⟨cat.collections.map (fun c => (c.name, c.dim, c.metadata)),
   cat.collections.map (fun c => (c.name, c.records))⟩

/-- Rebuild one collection from its manifest entry and the record files. -/
def loadCollection (files : List (String × List Record))
    (entry : String × Option Nat × Metadata) : Collection :=
  ⟨entry.1, entry.2.1, entry.2.2,
   (((files.find? (fun f => f.1 == entry.1)).map (fun f => f.2)).getD [])⟩

/-- Modelled from the spec: full reload of a persisted catalog. -/
def loadCatalog (ds : DiskStore) : StoreCatalog :=
  ⟨ds.manifest.map (loadCollection ds.recordFiles)⟩

/-- `true` when the collections of the list carry pairwise distinct names. -/
def namesNodupB : List Collection → Bool
  | [] => true
  | c :: cs => cs.all (fun c2 => c2.name != c.name) && namesNodupB cs

/-- The dimensionality invariant: every stored record's embedding length is
the collection's fixed dimensionality. -/
def Collection.Wf (c : Collection) : Prop :=
  ∀ r ∈ c.records, c.dim = some r.embedding.length

/-- Collection states reachable from a freshly created collection through the
store's operations. -/
inductive Reachable : Collection → Prop where
  | mkEmpty (name : String) (meta : Metadata) : Reachable (Collection.mkEmpty name meta)
  | add (c c' : Collection) (ep : EmbedFn) (items : List (String × String × Metadata)) :
      Reachable c → c.add ep items = .ok c' → Reachable c'
  | upsert (c c' : Collection) (ep : EmbedFn)
      (items : List (String × Option String × Option Metadata)) :
      Reachable c → upsertLoop ep c items = .ok c' → Reachable c'
  | del (c : Collection) (ids : List String) :
      Reachable c → Reachable (c.delete ids)
  | modify (c : Collection) (nm : String) (meta : Metadata) :
      Reachable c → Reachable { c with name := nm, metadata := meta }

/-- State observed by the caller after an `add`: the new state on success, the
prior state on error. -/
def afterAdd (c : Collection) (ep : EmbedFn)
    (items : List (String × String × Metadata)) : Collection :=
  match c.add ep items with
  | .ok c' => c'
  | .error _ => c

/-- State observed by the caller after an `upsert`. -/
def afterUpsert (c : Collection) (ep : EmbedFn)
    (items : List (String × Option String × Option Metadata)) : Collection :=
  match upsertLoop ep c items with
  | .ok c' => c'
  | .error _ => c

/-- Catalog state observed by the caller after a `modify`. -/
def afterModify (cat : StoreCatalog) (oldName : String) (newName : Option String)
    (newMeta : Option Metadata) : StoreCatalog :=
  match cat.modifyCollection oldName newName newMeta with
  | .ok cat' => cat'
  | .error _ => cat

/-- The batch added by `step3_crud_operations.py` (ids, documents, metadatas
as literals from the script). -/
def step3AddItems : List (String × String × Metadata) :=
  [("flight_policy_01",
    "For domestic flights, employees must book economy class tickets. Business class is only permitted for international flights over 8 hours.",
    [("policy_type", .str "flights")]),
   ("hotel_policy_01",
    "Employees can book hotels up to a maximum of $250 per night in major cities. A list of preferred hotel partners is available.",
    [("policy_type", .str "hotels")]),
   ("rental_car_policy_01",
    "A mid-size sedan is the standard for car rentals. Upgrades require manager approval. Always select the company\'s insurance option.",
    [("policy_type", .str "rental_cars")]),
   ("flight_policy_02",
    "All flights, regardless of destination, must be booked through the official company travel portal, \'Concur\'.",
    [("policy_type", .str "flights"), ("requires_portal", .str "True")])]

/-- The first upsert of `step3_crud_operations.py`: replace hotel_policy_01. -/
def step3UpsertHotel : String × Option String × Option Metadata :=
  ("hotel_policy_01",
   some "Employees can book hotels up to a maximum of $300 per night. See the portal for preferred partners.",
   some [("policy_type", .str "hotels"), ("max_spend", .num 300)])

/-- The second upsert of `step3_crud_operations.py`: insert train_policy_01. -/
def step3UpsertTrain : String × Option String × Option Metadata :=
  ("train_policy_01",
   some "Train travel is encouraged for trips under 4 hours. Business class tickets are approved for all train journeys.",
   some [("policy_type", .str "train"), ("last_updated", .str "2025-10-15")])

/-- The mutation sequence of `step3_crud_operations.py` on the
travel_policies collection: add four documents, upsert replacing
hotel_policy_01, upsert inserting train_policy_01, delete train_policy_01. -/
def step3Run (ep : EmbedFn) (c : Collection) : Except StoreError Collection :=
  match c.add ep step3AddItems with
  | .error e => .error e
  | .ok c1 =>
    match upsertLoop ep c1 [step3UpsertHotel] with
    | .error e => .error e
    | .ok c2 =>
      match upsertLoop ep c2 [step3UpsertTrain] with
      | .error e => .error e
      | .ok c3 => .ok (c3.delete ["train_policy_01"])

/-- The batch added by `step4_persistent_storage.py` when the persistent
collection is empty. -/
def step4Items : List (String × String × Metadata) :=
  [("saved_policy_01",
    "All expense reports must be submitted within 15 days of trip completion.",
    [("policy_type", .str "expenses"), ("category", .str "reporting")]),
   ("saved_policy_02",
    "Travel insurance is mandatory for all international trips exceeding 7 days.",
    [("policy_type", .str "insurance"), ("category", .str "international")]),
   ("saved_policy_03",
    "Receipts must be provided for all expenses over $25.",
    [("policy_type", .str "expenses"), ("category", .str "documentation")])]

/-- The seeding logic of `step4_persistent_storage.py`: the add runs only in
the else-branch of the `count() > 0` check. -/
def step4Run (ep : EmbedFn) (c : Collection) : Except StoreError Collection :=
  if c.count > 0 then .ok c else c.add ep step4Items

/-- The batch added by `step6_openai_embeddings.py` to the default-embedding
collection when it is empty. -/
def step6Items : List (String × String × Metadata) :=
  [("flight_01",
    "For domestic flights, employees must book economy class tickets. Business class is only permitted for international flights over 8 hours.",
    [("policy_type", .str "flights")]),
   ("hotel_01",
    "Employees can book hotels up to a maximum of $300 per night. See the portal for preferred partners.",
    [("policy_type", .str "hotels")]),
   ("expense_01",
    "All expenses must be submitted within 15 days with receipts for items over $25.",
    [("policy_type", .str "expenses")])]

/-- The seeding logic of `step6_openai_embeddings.py` for the
travel_policies_default collection: add only when `count() == 0`. -/
def step6Run (ep : EmbedFn) (c : Collection) : Except StoreError Collection :=
  if c.count == 0 then c.add ep step6Items else .ok c

/-- A total embedding provider sending every text to the 1-dimensional
vector [1]; used to instantiate theorems at concrete inputs. -/
def epOne : EmbedFn := fun _ => some [1]

/-- A total embedding provider of dimensionality 2. -/
def epPair : EmbedFn := fun _ => some [1, 2]

theorem addVecs_count :
    ∀ (items : List ((String × String × Metadata) × Vec)) (c c' : Collection),
      addVecs c items = .ok c' → c'.records.length = c.records.length + items.length
  | [], c, c', h => by
    rw [addVecs] at h
    cases h
    rfl
  | (it, v) :: rest, c, c', h => by
    rw [addVecs] at h
    by_cases hd : dimOk c.dim v
    · rw [if_pos hd] at h
      have hrec := addVecs_count rest _ c' h
      simp only [Collection.insertFresh, List.length_append, List.length_cons,
        List.length_nil] at hrec
      simp only [List.length_cons]
      omega
    · rw [if_neg hd] at h
      cases h

theorem addVecs_ne_dup :
    ∀ (items : List ((String × String × Metadata) × Vec)) (c : Collection),
      addVecs c items ≠ .error .DuplicateId
  | [], c => by rw [addVecs]; intro h; cases h
  | (it, v) :: rest, c => by
    rw [addVecs]
    by_cases hd : dimOk c.dim v
    · rw [if_pos hd]; exact addVecs_ne_dup rest _
    · rw [if_neg hd]; intro h; cases h

theorem add_count_aux (c : Collection) (ep : EmbedFn)
    (items : List (String × String × Metadata)) (c' : Collection)
    (h : c.add ep items = .ok c') : c'.count = c.count + items.length := by
  rw [Collection.add] at h
  split at h
  · cases h
  · split at h
    · cases h
    · rename_i vs heq
      have hlen := embedAll_length ep _ vs heq
      have hz := addVecs_count (items.zip vs) c c' h
      rw [List.length_zip] at hz
      rw [List.length_map] at hlen
      simp only [Collection.count]
      omega

/-- C5: for every successful `add` call (all ids fresh, dimensionality
matching), `count()` afterwards equals `count()` before plus the number of
ids passed to `add`. -/
theorem add_count (c : Collection) (ep : EmbedFn)
    (items : List (String × String × Metadata)) (c' : Collection)
    (h : c.add ep items = .ok c') : c'.count = c.count + items.length :=
  add_count_aux c ep items c' h

theorem add_count_witness :
    (Collection.mkEmpty "t" []).add epOne [("a", "d", [])] =
        .ok ⟨"t", some 1, [], [⟨"a", some "d", [1], []⟩]⟩ ∧
      (⟨"t", some 1, [], [⟨"a", some "d", [1], []⟩]⟩ : Collection).count =
        (Collection.mkEmpty "t" []).count + 1 :=
  ⟨by rfl, add_count (Collection.mkEmpty "t" []) epOne [("a", "d", [])] _ (by rfl)⟩

theorem insertFresh_wf (c : Collection) (r : Record) (hc : c.Wf)
    (hd : dimOk c.dim r.embedding = true) : (c.insertFresh r).Wf := by
  intro s hs
  simp only [Collection.insertFresh, List.mem_append, List.mem_singleton] at hs
  rcases hs with hs | rfl
  · have hthis := hc s hs
    cases hdim : c.dim with
    | none => rw [hdim] at hthis; cases hthis
    | some d =>
      rw [hdim] at hthis hd
      simp only [dimOk, beq_iff_eq] at hd
      have hsd : d = s.embedding.length := by injection hthis
      show some r.embedding.length = some s.embedding.length
      rw [hd, hsd]
  · rfl

theorem addVecs_wf :
    ∀ (items : List ((String × String × Metadata) × Vec)) (c c' : Collection),
      c.Wf → addVecs c items = .ok c' → c'.Wf
  | [], c, c', hc, h => by rw [addVecs] at h; cases h; exact hc
  | (it, v) :: rest, c, c', hc, h => by
    rw [addVecs] at h
    by_cases hd : dimOk c.dim v
    · rw [if_pos hd] at h
      exact addVecs_wf rest _ c' (insertFresh_wf c _ hc hd) h
    · rw [if_neg hd] at h; cases h

theorem add_wf (c c' : Collection) (ep : EmbedFn)
    (items : List (String × String × Metadata)) (hc : c.Wf)
    (h : c.add ep items = .ok c') : c'.Wf := by
  rw [Collection.add] at h
  split at h
  · cases h
  · split at h
    · cases h
    · exact addVecs_wf _ c c' hc h

theorem upsertOne_wf (c c' : Collection) (ep : EmbedFn) (i : String)
    (d? : Option String) (m? : Option Metadata) (hc : c.Wf)
    (h : c.upsertOne ep i d? m? = .ok c') : c'.Wf := by
  unfold Collection.upsertOne at h
  split at h
  · rename_i r0 hf
    have hr0 : r0 ∈ c.records := List.mem_of_find?_eq_some hf
    split at h
    · split at h
      · cases h
      · rename_i v hv
        split at h
        · rename_i hd
          cases h
          intro s hs
          simp only [replaceRecord, List.mem_map] at hs
          obtain ⟨s0, hs0, hseq⟩ := hs
          by_cases hid : (s0.id == i) = true
          · rw [if_pos hid] at hseq
            have hdim := hc r0 hr0
            cases hdimc : c.dim with
            | none => rw [hdimc] at hdim; cases hdim
            | some d =>
              rw [hdimc] at hdim hd
              simp only [dimOk, beq_iff_eq] at hd
              rw [← hseq]
              simp [hd]
          · rw [if_neg hid] at hseq
            rw [← hseq]
            exact hc s0 hs0
        · cases h
    · cases h
      intro s hs
      simp only [replaceRecord, List.mem_map] at hs
      obtain ⟨s0, hs0, hseq⟩ := hs
      by_cases hid : (s0.id == i) = true
      · rw [if_pos hid] at hseq
        rw [← hseq]
        exact hc s0 hs0
      · rw [if_neg hid] at hseq
        rw [← hseq]
        exact hc s0 hs0
  · split at h
    · cases h
    · split at h
      · cases h
      · rename_i hd
        split at h
        · cases h
          exact insertFresh_wf c _ hc (by assumption)
        · cases h

theorem upsertLoop_wf :
    ∀ (items : List (String × Option String × Option Metadata)) (c c' : Collection),
      c.Wf → upsertLoop ep c items = .ok c' → c'.Wf
  | [], c, c', hc, h => by rw [upsertLoop] at h; cases h; exact hc
  | it :: rest, c, c', hc, h => by
    rw [upsertLoop] at h
    split at h
    · cases h
    · rename_i c1 h1
      exact upsertLoop_wf rest c1 c' (upsertOne_wf c c1 ep it.1 it.2.1 it.2.2 hc h1) h

theorem delete_wf (c : Collection) (ids : List String) (hc : c.Wf) :
    (c.delete ids).Wf := by
  intro s hs
  simp only [Collection.delete, List.mem_filter] at hs
  exact hc s hs.1

theorem reachable_wf : ∀ c : Collection, Reachable c → c.Wf := by
  intro c h
  induction h with
  | mkEmpty name meta => intro s hs; cases hs
  | add c c' ep items _ hstep ih => exact add_wf c c' ep items ih hstep
  | upsert c c' ep items _ hstep ih => exact upsertLoop_wf items c c' ih hstep
  | del c ids _ ih => exact delete_wf c ids ih
  | modify c nm meta _ ih => intro s hs; exact ih s hs

/-- C4: every record in a reachable collection state has an embedding whose
length equals the collection's fixed dimensionality, and an insert whose
vector has a different dimensionality fails with `DimensionMismatch`. -/
theorem dim_invariant :
    (∀ c : Collection, Reachable c → c.Wf) ∧
    (∀ (c : Collection) (ep : EmbedFn) (i doc : String) (m : Metadata) (v : Vec)
       (d : Nat), c.dim = some d → ep doc = some v → v.length ≠ d →
       c.hasId i = false → c.add ep [(i, doc, m)] = .error .DimensionMismatch) := by
  refine ⟨reachable_wf, ?_⟩
  intro c ep i doc m v d hdim hv hlen hid
  rw [Collection.add]
  have hfresh : freshIds c ([(i, doc, m)].map (fun it => it.1)) = true := by
    simp [freshIds, hid]
  rw [hfresh]
  simp only [Bool.not_true, Bool.false_eq_true, if_false]
  have hemb : embedAll ep ([(i, doc, m)].map (fun it => it.2.1)) = some [v] := by
    simp [embedAll, hv]
  have hdo : dimOk c.dim v = false := by
    rw [hdim]; simp [dimOk, hlen]
  rw [hemb]
  show addVecs c ([(i, doc, m)].zip [v]) = .error .DimensionMismatch
  rw [show ([(i, doc, m)].zip [v]) = [((i, doc, m), v)] from rfl]
  rw [addVecs, hdo]
  simp

theorem dim_invariant_witness :
    (Collection.mkEmpty "e" []).Wf ∧
      (⟨"t", some 1, [], []⟩ : Collection).add epPair [("b", "d", [])] =
        .error .DimensionMismatch :=
  ⟨dim_invariant.1 _ (Reachable.mkEmpty "e" []),
   dim_invariant.2 ⟨"t", some 1, [], []⟩ epPair "b" "d" [] [1, 2] 1 rfl rfl
     (by decide) rfl⟩

theorem take_sorted_key {α : Type} (key : α → Rat) (l : List α) (n : Nat) :
    List.Sorted (fun a b => a ≤ b) (((sortAsc key l).take n).map key) := by
  have h1 : List.Pairwise (fun a b => key a ≤ key b) (sortAsc key l) :=
    sortAsc_sorted key l
  have h2 : List.Pairwise (fun a b => key a ≤ key b) ((sortAsc key l).take n) :=
    List.Pairwise.sublist (List.take_sublist n _) h1
  exact List.Pairwise.map key (fun a b hab => hab) h2

/-- C8: inserting the 2-d vectors (0,0), (1,0), (0,1) under ids a, b, c and
querying `nearest((0.1, 0), 1)` returns exactly `[("a", 0.01)]` under squared
Euclidean distance; in general `nearest` returns an ascending-by-distance
sequence of at most `k` (id, distance) pairs. -/
theorem nearest_example_sorted :
    (Except.bind (VectorIndex.empty.insert "a" [0, 0]) (fun j1 =>
       Except.bind (j1.insert "b" [1, 0]) (fun j2 => j2.insert "c" [0, 1])) =
         .ok ⟨some 2, [("a", [0, 0]), ("b", [1, 0]), ("c", [0, 1])]⟩ ∧
     VectorIndex.nearest ⟨some 2, [("a", [0, 0]), ("b", [1, 0]), ("c", [0, 1])]⟩
         [1/10, 0] 1 = [("a", 1/100)]) ∧
    (∀ (ix : VectorIndex) (q : Vec) (k : Nat),
      List.Sorted (fun a b => a ≤ b) ((ix.nearest q k).map Prod.snd) ∧
      (ix.nearest q k).length ≤ k) := by
  refine ⟨⟨by rfl, ?_⟩, ?_⟩
  · norm_num [VectorIndex.nearest, sortAsc, insertAsc, sqDist]
  · intro ix q k
    constructor
    · have h := take_sorted_key (fun e : String × Rat => e.2)
        (ix.entries.map (fun e => (e.1, sqDist q e.2))) k
      simpa [VectorIndex.nearest] using h
    · simp only [VectorIndex.nearest]
      exact List.length_take_le k _

/-- C1: query results are ordered ascending by distance, and requesting
`n_results` at least the collection size returns exactly all records (ids and
documents a permutation of the stored ones, one distance per record), with no
error possible beyond an embedding failure. -/
theorem query_sorted_complete (c : Collection) (ep : EmbedFn)
    (texts : List String) (n : Nat) :
    (∀ qvs, embedAll ep texts = some qvs → ∃ rs, c.query ep texts n = .ok rs) ∧
    (∀ rs, c.query ep texts n = .ok rs → ∀ qr ∈ rs,
      List.Sorted (fun a b => a ≤ b) qr.distances ∧
      (c.count ≤ n →
        qr.ids.Perm (c.records.map Record.id) ∧
        qr.documents.Perm (c.records.map Record.document) ∧
        qr.distances.length = c.count)) := by
  constructor
  · intro qvs hq
    rw [Collection.query, hq]
    exact ⟨_, rfl⟩
  · intro rs hrs qr hqr
    rw [Collection.query] at hrs
    cases hq : embedAll ep texts with
    | none => rw [hq] at hrs; cases hrs
    | some qvs =>
      rw [hq] at hrs
      cases hrs
      obtain ⟨qv, hqv, rfl⟩ := List.mem_map.mp hqr
      constructor
      · have h := take_sorted_key (fun pr : Record × Rat => pr.2)
          (c.records.map (fun r => (r, sqDist qv r.embedding))) n
        simpa [Collection.query1, Collection.rankAll] using h
      · intro hn
        have hlen : (c.rankAll qv).length = c.count := by
          simp [Collection.rankAll, sortAsc_length, Collection.count]
        have htake : (c.rankAll qv).take n = c.rankAll qv :=
          List.take_of_length_le (by rw [hlen]; exact hn)
        have hperm : (c.rankAll qv).Perm
            (c.records.map (fun r => (r, sqDist qv r.embedding))) :=
          sortAsc_perm _ _
        refine ⟨?_, ?_, ?_⟩
        · have h2 := hperm.map (fun pr : Record × Rat => pr.1.id)
          rw [List.map_map] at h2
          simpa [Collection.query1, htake, Function.comp] using h2
        · have h2 := hperm.map (fun pr : Record × Rat => pr.1.document)
          rw [List.map_map] at h2
          simpa [Collection.query1, htake, Function.comp] using h2
        · simp [Collection.query1, htake, hlen]

theorem query_sorted_complete_witness :
    List.Sorted (fun a b => a ≤ b) (QueryResult.mk [] [] [] []).distances ∧
      ((Collection.mkEmpty "t" []).count ≤ 1 →
        (QueryResult.mk [] [] [] []).ids.Perm
          ((Collection.mkEmpty "t" []).records.map Record.id) ∧
        (QueryResult.mk [] [] [] []).documents.Perm
          ((Collection.mkEmpty "t" []).records.map Record.document) ∧
        (QueryResult.mk [] [] [] []).distances.length =
          (Collection.mkEmpty "t" []).count) :=
  (query_sorted_complete (Collection.mkEmpty "t" []) epOne ["q"] 1).2
    [⟨[], [], [], []⟩] (by rfl) ⟨[], [], [], []⟩ (by simp)

theorem freshIds_false_of_mem (c : Collection) :
    ∀ (ids : List String) (i : String), i ∈ ids → c.hasId i = true →
      freshIds c ids = false
  | [], i, hmem, _ => by cases hmem
  | j :: rest, i, hmem, hid => by
    rcases List.mem_cons.mp hmem with rfl | hmem
    · rw [freshIds, hid]
      simp
    · rw [freshIds, freshIds_false_of_mem c rest i hmem hid]
      simp

/-- C2: a mutating call that fails with an error leaves the prior state
unchanged (add, upsert, catalog modify); in particular `add` of an existing
id fails with `DuplicateId`, and a provider failure during `add` fails with
`EmbeddingProviderError`, leaving the collection unchanged. -/
theorem mutation_atomic :
    (∀ (c : Collection) (ep : EmbedFn) (items : List (String × String × Metadata))
       (e : StoreError), c.add ep items = .error e → afterAdd c ep items = c) ∧
    (∀ (c : Collection) (ep : EmbedFn)
       (items : List (String × Option String × Option Metadata)) (e : StoreError),
       upsertLoop ep c items = .error e → afterUpsert c ep items = c) ∧
    (∀ (cat : StoreCatalog) (oldName : String) (nn : Option String)
       (nm : Option Metadata) (e : StoreError),
       cat.modifyCollection oldName nn nm = .error e →
         afterModify cat oldName nn nm = cat) ∧
    (∀ (c : Collection) (ep : EmbedFn) (items : List (String × String × Metadata))
       (i : String), i ∈ items.map (fun it => it.1) → c.hasId i = true →
       c.add ep items = .error .DuplicateId ∧ afterAdd c ep items = c) ∧
    (∀ (c : Collection) (ep : EmbedFn) (items : List (String × String × Metadata)),
       freshIds c (items.map (fun it => it.1)) = true →
       embedAll ep (items.map (fun it => it.2.1)) = none →
       c.add ep items = .error .EmbeddingProviderError ∧ afterAdd c ep items = c) := by
  have hadd : ∀ (c : Collection) (ep : EmbedFn)
      (items : List (String × String × Metadata)) (e : StoreError),
      c.add ep items = .error e → afterAdd c ep items = c := by
    intro c ep items e h
    rw [afterAdd, h]
  have hdup : ∀ (c : Collection) (ep : EmbedFn)
      (items : List (String × String × Metadata)) (i : String),
      i ∈ items.map (fun it => it.1) → c.hasId i = true →
      c.add ep items = .error .DuplicateId := by
    intro c ep items i hmem hid
    rw [Collection.add, freshIds_false_of_mem c _ i hmem hid]
    rfl
  have hprov : ∀ (c : Collection) (ep : EmbedFn)
      (items : List (String × String × Metadata)),
      freshIds c (items.map (fun it => it.1)) = true →
      embedAll ep (items.map (fun it => it.2.1)) = none →
      c.add ep items = .error .EmbeddingProviderError := by
    intro c ep items hfr hemb
    rw [Collection.add, hfr, hemb]
    rfl
  refine ⟨hadd, ?_, ?_, ?_, ?_⟩
  · intro c ep items e h
    rw [afterUpsert, h]
  · intro cat oldName nn nm e h
    rw [afterModify, h]
  · intro c ep items i hmem hid
    exact ⟨hdup c ep items i hmem hid, hadd c ep items _ (hdup c ep items i hmem hid)⟩
  · intro c ep items hfr hemb
    exact ⟨hprov c ep items hfr hemb, hadd c ep items _ (hprov c ep items hfr hemb)⟩

theorem mutation_atomic_witness :
    (⟨"t", some 1, [], [⟨"a", some "d", [1], []⟩]⟩ : Collection).add epOne
        [("a", "d2", [])] = .error .DuplicateId ∧
      afterAdd ⟨"t", some 1, [], [⟨"a", some "d", [1], []⟩]⟩ epOne
        [("a", "d2", [])] = ⟨"t", some 1, [], [⟨"a", some "d", [1], []⟩]⟩ :=
  mutation_atomic.2.2.2.1 ⟨"t", some 1, [], [⟨"a", some "d", [1], []⟩]⟩ epOne
    [("a", "d2", [])] "a" (by simp) (by rfl)

theorem find_saved_file :
    ∀ (cs : List Collection) (c : Collection), namesNodupB cs = true → c ∈ cs →
      (cs.map (fun c0 => (c0.name, c0.records))).find?
          (fun f => f.1 == c.name) = some (c.name, c.records)
  | [], c, _, hmem => by cases hmem
  | c0 :: rest, c, hnd, hmem => by
    rw [namesNodupB, Bool.and_eq_true] at hnd
    rcases List.mem_cons.mp hmem with rfl | hmem
    · simp [List.find?]
    · have hne : c.name ≠ c0.name := by
        have := (List.all_eq_true.mp hnd.1) c hmem
        simpa using this
      simp only [List.map, List.find?]
      rw [show ((c0.name, c0.records).1 == c.name) = false from
        beq_eq_false_iff_ne.mpr (fun hcon => hne hcon.symm)]
      exact find_saved_file rest c hnd.2 hmem

theorem load_saved_collection (cs : List Collection) (c : Collection)
    (hnd : namesNodupB cs = true) (hmem : c ∈ cs) :
    loadCollection (cs.map (fun c0 => (c0.name, c0.records)))
      (c.name, c.dim, c.metadata) = c := by
  rw [loadCollection]
  rw [show ((c.name, c.dim, c.metadata).1) = c.name from rfl]
  rw [find_saved_file cs c hnd hmem]
  rfl

/-- C3: persisting a catalog and reloading it from the same backing store
yields an identical set of collections, dimensionalities, and record
contents (the round-trip is the identity on the catalog state). -/
theorem persistence_roundtrip (cat : StoreCatalog)
    (h : namesNodupB cat.collections = true) :
    loadCatalog (saveCatalog cat) = cat := by
  cases cat with
  | mk cs =>
    simp only [saveCatalog, loadCatalog, StoreCatalog.mk.injEq]
    rw [List.map_map]
    have hid : ∀ c ∈ cs,
        (loadCollection (cs.map (fun c0 => (c0.name, c0.records))) ∘
          (fun c0 => (c0.name, c0.dim, c0.metadata))) c = id c := by
      intro c hmem
      show loadCollection (cs.map (fun c0 => (c0.name, c0.records)))
        (c.name, c.dim, c.metadata) = c
      exact load_saved_collection cs c h hmem
    rw [List.map_congr_left hid, List.map_id]

theorem persistence_roundtrip_witness :
    loadCatalog (saveCatalog ⟨[⟨"u", some 1, [], [⟨"a", some "d", [1], []⟩]⟩,
        ⟨"v", none, [("k", .str "w")], []⟩]⟩) =
      ⟨[⟨"u", some 1, [], [⟨"a", some "d", [1], []⟩]⟩,
        ⟨"v", none, [("k", .str "w")], []⟩]⟩ :=
  persistence_roundtrip ⟨[⟨"u", some 1, [], [⟨"a", some "d", [1], []⟩]⟩,
    ⟨"v", none, [("k", .str "w")], []⟩]⟩ (by rfl)

theorem find?_cons_pos {α : Type} (p : α → Bool) (a : α) (l : List α)
    (h : p a = true) : (a :: l).find? p = some a := by
  simp [List.find?, h]

theorem find?_cons_neg {α : Type} (p : α → Bool) (a : α) (l : List α)
    (h : p a = false) : (a :: l).find? p = l.find? p := by
  simp [List.find?, h]

theorem rename_find_y (y x : String) (m? : Option Metadata) (hxy : x ≠ y) :
    ∀ l : List Collection,
      (l.map (fun c => if c.name == y then
          { c with name := x, metadata := m?.getD c.metadata } else c)).find?
        (fun c => c.name == y) = none
  | [] => rfl
  | c0 :: rest => by
    simp only [List.map]
    by_cases h0 : (c0.name == y) = true
    · rw [if_pos h0]
      rw [List.find?_cons_of_neg _ ?_]
      · exact rename_find_y y x m? hxy rest
      · show ¬(({ c0 with name := x, metadata := m?.getD c0.metadata } :
            Collection).name == y) = true
        simpa using hxy
    · rw [if_neg h0]
      rw [List.find?_cons_of_neg _ (by simpa using h0)]
      exact rename_find_y y x m? hxy rest

theorem rename_find_x (y x : String) (m? : Option Metadata) (cy : Collection) :
    ∀ l : List Collection, l.find? (fun c => c.name == y) = some cy →
      (∀ c ∈ l, c.name ≠ x) →
      (l.map (fun c => if c.name == y then
          { c with name := x, metadata := m?.getD c.metadata } else c)).find?
        (fun c => c.name == x) =
        some { cy with name := x, metadata := m?.getD cy.metadata }
  | [], hf, _ => by cases hf
  | c0 :: rest, hf, hx => by
    simp only [List.map]
    by_cases h0 : (c0.name == y) = true
    · rw [find?_cons_pos (fun c => c.name == y) c0 rest h0] at hf
      cases hf
      rw [if_pos h0]
      rw [find?_cons_pos (fun c : Collection => c.name == x)
        { cy with name := x, metadata := m?.getD cy.metadata } _ (by simp)]
    · rw [find?_cons_neg (fun c => c.name == y) c0 rest
        (Bool.not_eq_true _ ▸ h0)] at hf
      rw [if_neg h0]
      rw [find?_cons_neg (fun c => c.name == x) c0 _ ?_]
      · exact rename_find_x y x m? cy rest hf
          (fun c hc => hx c (List.mem_cons_of_mem c0 hc))
      · simpa using hx c0 (List.mem_cons_self c0 rest)

/-- C7: after `modify(name="x")` on the collection named "y" (with "x" not
used by any collection), `get_collection("y")` fails with `NotFound` and
`get_collection("x")` succeeds, returning the renamed collection. -/
theorem modify_rename (cat : StoreCatalog) (y x : String) (cy : Collection)
    (m? : Option Metadata) (hy : cat.getCollection y = .ok cy) (hxy : x ≠ y)
    (hx : ∀ c ∈ cat.collections, c.name ≠ x) :
    ∃ cat', cat.modifyCollection y (some x) m? = .ok cat' ∧
      cat'.getCollection y = .error (.NotFound [y]) ∧
      cat'.getCollection x =
        .ok { cy with name := x, metadata := m?.getD cy.metadata } := by
  rw [StoreCatalog.getCollection] at hy
  cases hf : cat.collections.find? (fun c => c.name == y) with
  | none => rw [hf] at hy; cases hy
  | some c1 =>
    rw [hf] at hy
    cases hy
    have hany : cat.collections.any (fun c => c.name == x) = false := by
      rw [List.any_eq_false]
      intro c hc
      simpa using hx c hc
    refine ⟨⟨cat.collections.map (fun c => if c.name == y then
        { c with name := x, metadata := m?.getD c.metadata } else c)⟩, ?_, ?_, ?_⟩
    · rw [StoreCatalog.modifyCollection, hf]
      show (if (x != y) && cat.collections.any (fun c => c.name == x) then
          (Except.error .AlreadyExists : Except StoreError StoreCatalog)
        else .ok ⟨cat.collections.map (fun c => if c.name == y then
          { c with name := x, metadata := m?.getD c.metadata } else c)⟩) = _
      rw [hany]
      simp
    · rw [StoreCatalog.getCollection]
      show (match (cat.collections.map (fun c => if c.name == y then
          { c with name := x, metadata := m?.getD c.metadata } else c)).find?
            (fun c => c.name == y) with
        | some c => (Except.ok c : Except StoreError Collection)
        | none => .error (.NotFound [y])) = _
      rw [rename_find_y y x m? hxy cat.collections]
    · rw [StoreCatalog.getCollection]
      show (match (cat.collections.map (fun c => if c.name == y then
          { c with name := x, metadata := m?.getD c.metadata } else c)).find?
            (fun c => c.name == x) with
        | some c => (Except.ok c : Except StoreError Collection)
        | none => .error (.NotFound [x])) = _
      rw [rename_find_x y x m? cy cat.collections hf hx]

theorem modify_rename_witness :
    ∃ cat', StoreCatalog.modifyCollection ⟨[⟨"y", none, [], []⟩]⟩ "y" (some "x")
        (some [("k", .str "v")]) = .ok cat' ∧
      cat'.getCollection "y" = .error (.NotFound ["y"]) ∧
      cat'.getCollection "x" = .ok ⟨"x", none, [("k", .str "v")], []⟩ :=
  modify_rename ⟨[⟨"y", none, [], []⟩]⟩ "y" "x" ⟨"y", none, [], []⟩
    (some [("k", .str "v")]) (by rfl) (by decide) (by decide)

theorem findRecord_replace (i : String) (f : Record → Record)
    (hf : ∀ r : Record, (r.id == i) = true → ((f r).id == i) = true) :
    ∀ (l : List Record) (r0 : Record),
      l.find? (fun r => r.id == i) = some r0 →
      (replaceRecord l i f).find? (fun r => r.id == i) = some (f r0)
  | [], r0, h => by cases h
  | s :: rest, r0, h => by
    simp only [replaceRecord, List.map]
    by_cases hs : (s.id == i) = true
    · rw [find?_cons_pos (fun r => r.id == i) s rest hs] at h
      cases h
      rw [if_pos hs]
      rw [find?_cons_pos (fun r : Record => r.id == i) (f s) _ (hf s hs)]
    · rw [find?_cons_neg (fun r => r.id == i) s rest (Bool.not_eq_true _ ▸ hs)] at h
      rw [if_neg hs]
      rw [find?_cons_neg (fun r : Record => r.id == i) s _ (Bool.not_eq_true _ ▸ hs)]
      exact findRecord_replace i f hf rest r0 h

theorem replace_replace (i : String) (f : Record → Record)
    (hf : ∀ r : Record, (r.id == i) = true →
      ((f r).id == i) = true ∧ f (f r) = f r) :
    ∀ l : List Record, replaceRecord (replaceRecord l i f) i f = replaceRecord l i f
  | [] => rfl
  | s :: rest => by
    simp only [replaceRecord, List.map]
    have hr := replace_replace i f hf rest
    simp only [replaceRecord] at hr
    by_cases hs : (s.id == i) = true
    · rw [if_pos hs, if_pos ((hf s hs).1), (hf s hs).2, hr]
    · rw [if_neg hs, if_neg hs, hr]

theorem replaceRecord_of_absent (i : String) (f : Record → Record) :
    ∀ l : List Record, l.find? (fun r => r.id == i) = none →
      replaceRecord l i f = l
  | [], _ => rfl
  | s :: rest, h => by
    have hall := List.find?_eq_none.mp h
    have hs : ¬(s.id == i) = true := hall s (List.mem_cons_self s rest)
    simp only [replaceRecord, List.map, if_neg hs]
    have hrest : rest.find? (fun r => r.id == i) = none :=
      List.find?_eq_none.mpr (fun r hr => hall r (List.mem_cons_of_mem s hr))
    have := replaceRecord_of_absent i f rest hrest
    simp only [replaceRecord] at this
    rw [this]

theorem findRecord_append_fresh (i : String) (r : Record) (hr : (r.id == i) = true) :
    ∀ l : List Record, l.find? (fun rr => rr.id == i) = none →
      (l ++ [r]).find? (fun rr => rr.id == i) = some r
  | [], _ => by
    simp only [List.nil_append]
    rw [find?_cons_pos (fun rr : Record => rr.id == i) r [] hr]
  | s :: rest, h => by
    have hall := List.find?_eq_none.mp h
    have hs : ¬(s.id == i) = true := hall s (List.mem_cons_self s rest)
    simp only [List.cons_append]
    rw [find?_cons_neg (fun rr : Record => rr.id == i) s _ (Bool.not_eq_true _ ▸ hs)]
    exact findRecord_append_fresh i r hr rest
      (List.find?_eq_none.mpr (fun rr hrr => hall rr (List.mem_cons_of_mem s hrr)))

theorem upsertOne_idem (c c' : Collection) (ep : EmbedFn) (i : String)
    (d? : Option String) (m? : Option Metadata)
    (h : c.upsertOne ep i d? m? = .ok c') :
    c'.upsertOne ep i d? m? = .ok c' := by
  have hgetD : ∀ z : Metadata, m?.getD (m?.getD z) = m?.getD z := by
    intro z; cases m? <;> rfl
  obtain ⟨nm, dm, mt, recs⟩ := c
  unfold Collection.upsertOne at h
  split at h
  · next r0 hf =>
    split at h
    · next doc =>
      split at h
      · cases h
      · next v hv =>
        split at h
        · next hd =>
          cases h
          have hids : ∀ r : Record, (r.id == i) = true →
              (((fun r => (⟨i, some doc, v, m?.getD r.metadata⟩ : Record)) r).id == i)
                = true ∧
              (fun r => (⟨i, some doc, v, m?.getD r.metadata⟩ : Record))
                ((fun r => (⟨i, some doc, v, m?.getD r.metadata⟩ : Record)) r) =
              (fun r => (⟨i, some doc, v, m?.getD r.metadata⟩ : Record)) r := by
            intro r _
            refine ⟨by simp, ?_⟩
            show (⟨i, some doc, v, m?.getD (m?.getD r.metadata)⟩ : Record) = _
            rw [hgetD]
          have hfind : Collection.findRecord
              ⟨nm, dm, mt, replaceRecord recs i
                (fun r => ⟨i, some doc, v, m?.getD r.metadata⟩)⟩ i =
              some ((fun r => (⟨i, some doc, v, m?.getD r.metadata⟩ : Record)) r0) :=
            findRecord_replace i _ (fun r hr => (hids r hr).1) recs r0 hf
          unfold Collection.upsertOne
          rw [hfind]
          show (match ep doc with
            | none => (Except.error .EmbeddingProviderError : Except StoreError Collection)
            | some v2 =>
              if dimOk dm v2 then
                .ok ⟨nm, dm, mt, replaceRecord
                  (replaceRecord recs i (fun r => ⟨i, some doc, v, m?.getD r.metadata⟩))
                  i (fun r => ⟨i, some doc, v2, m?.getD r.metadata⟩)⟩
              else .error .DimensionMismatch) = _
          rw [hv]
          show (if dimOk dm v then _ else _) = _
          rw [if_pos hd]
          rw [replace_replace i _ hids recs]
        · cases h
    · cases h
      have hids : ∀ r : Record, (r.id == i) = true →
          (((fun r : Record => { r with metadata := m?.getD r.metadata }) r).id == i)
            = true ∧
          (fun r : Record => { r with metadata := m?.getD r.metadata })
            ((fun r : Record => { r with metadata := m?.getD r.metadata }) r) =
          (fun r : Record => { r with metadata := m?.getD r.metadata }) r := by
        intro r hr
        refine ⟨hr, ?_⟩
        show ({ r with metadata := m?.getD (m?.getD r.metadata) } : Record) = _
        rw [hgetD]
      have hfind : Collection.findRecord
          ⟨nm, dm, mt, replaceRecord recs i
            (fun r => { r with metadata := m?.getD r.metadata })⟩ i =
          some ((fun r : Record => { r with metadata := m?.getD r.metadata }) r0) :=
        findRecord_replace i _ (fun r hr => (hids r hr).1) recs r0 hf
      unfold Collection.upsertOne
      rw [hfind]
      show (Except.ok (⟨nm, dm, mt, replaceRecord
          (replaceRecord recs i (fun r : Record => { r with metadata := m?.getD r.metadata }))
          i (fun r : Record => { r with metadata := m?.getD r.metadata })⟩ : Collection) :
        Except StoreError Collection) = _
      rw [replace_replace i _ hids recs]
  · next hf =>
    split at h
    · cases h
    · next doc =>
      split at h
      · cases h
      · next v hv =>
        split at h
        · next hd =>
          cases h
          have hfind : Collection.findRecord
              ⟨nm, some v.length, mt,
                recs ++ [⟨i, some doc, v, m?.getD []⟩]⟩ i =
              some ⟨i, some doc, v, m?.getD []⟩ :=
            findRecord_append_fresh i _ (by simp) recs hf
          unfold Collection.upsertOne
          simp only [Collection.insertFresh]
          simp only [hfind, hv]
          rw [if_pos (show dimOk (some v.length) v = true by simp [dimOk])]
          have habs : replaceRecord recs i
              (fun r : Record => (⟨i, some doc, v, m?.getD r.metadata⟩ : Record)) =
              recs :=
            replaceRecord_of_absent i _ recs hf
          have hone : replaceRecord [(⟨i, some doc, v, m?.getD []⟩ : Record)] i
              (fun r : Record => (⟨i, some doc, v, m?.getD r.metadata⟩ : Record)) =
              [(⟨i, some doc, v, m?.getD []⟩ : Record)] := by
            simp only [replaceRecord, List.map_cons, List.map_nil]
            rw [if_pos (by simp)]
            show [(⟨i, some doc, v, m?.getD (m?.getD [])⟩ : Record)] = _
            rw [hgetD]
          simp only [replaceRecord] at habs hone ⊢
          rw [List.map_append, habs, hone]
        · cases h

/-- C6: upsert is idempotent — a second upsert with the same id, document and
metadata arguments returns the same collection state (hence the same stored
record) as the first. -/
theorem upsert_idem (c c' : Collection) (ep : EmbedFn) (i : String)
    (d? : Option String) (m? : Option Metadata)
    (h : upsertLoop ep c [(i, d?, m?)] = .ok c') :
    upsertLoop ep c' [(i, d?, m?)] = .ok c' := by
  rw [upsertLoop] at h ⊢
  cases hu : c.upsertOne ep i d? m? with
  | error e => rw [hu] at h; cases h
  | ok c1 =>
    simp only [hu, upsertLoop] at h
    cases h
    simp only [upsertOne_idem c c' ep i d? m? hu, upsertLoop]

theorem upsert_idem_witness :
    upsertLoop epOne ⟨"t", some 1, [], [⟨"a", some "d", [1], [("k", .str "v")]⟩]⟩
        [("a", some "d", some [("k", .str "v")])] =
      .ok ⟨"t", some 1, [], [⟨"a", some "d", [1], [("k", .str "v")]⟩]⟩ :=
  upsert_idem (Collection.mkEmpty "t" [])
    ⟨"t", some 1, [], [⟨"a", some "d", [1], [("k", .str "v")]⟩]⟩ epOne
    "a" (some "d") (some [("k", .str "v")]) (by rfl)

theorem step4_fresh (c : Collection) (hrec : c.records = []) :
    freshIds c (step4Items.map (fun it => it.1)) = true := by
  obtain ⟨nm, dm, mt, recs⟩ := c
  simp only at hrec
  subst hrec
  simp [freshIds, Collection.hasId, step4Items]

theorem step6_fresh (c : Collection) (hrec : c.records = []) :
    freshIds c (step6Items.map (fun it => it.1)) = true := by
  obtain ⟨nm, dm, mt, recs⟩ := c
  simp only at hrec
  subst hrec
  simp [freshIds, Collection.hasId, step6Items]

theorem add_ne_dup_of_fresh (c : Collection) (ep : EmbedFn)
    (items : List (String × String × Metadata))
    (hfr : freshIds c (items.map (fun it => it.1)) = true) :
    c.add ep items ≠ .error .DuplicateId := by
  rw [Collection.add, hfr]
  simp only [Bool.not_true, Bool.false_eq_true, if_false]
  cases hemb : embedAll ep (items.map (fun it => it.2.1)) with
  | none => intro hcon; cases hcon
  | some vs => exact addVecs_ne_dup _ _

/-- C9: in step4 and step6 the persistent-collection `add` is guarded by an
emptiness check on `count()`, so the add only runs on an empty collection:
`DuplicateId` is unreachable, a non-empty collection is left untouched, and
a second run after any successful run changes nothing (each collection is
seeded at most once). -/
theorem seed_guard (ep : EmbedFn) (c c' : Collection) :
    (step4Run ep c ≠ .error .DuplicateId) ∧
    (0 < c.count → step4Run ep c = .ok c) ∧
    (step4Run ep c = .ok c' → step4Run ep c' = .ok c') ∧
    (step6Run ep c ≠ .error .DuplicateId) ∧
    (0 < c.count → step6Run ep c = .ok c) ∧
    (step6Run ep c = .ok c' → step6Run ep c' = .ok c') := by
  refine ⟨?_, ?_, ?_, ?_, ?_, ?_⟩
  · rw [step4Run]
    by_cases hc : 0 < c.count
    · rw [if_pos hc]; intro hcon; cases hcon
    · rw [if_neg hc]
      have hrec : c.records = [] := by
        rw [← List.length_eq_zero]
        simp only [Collection.count] at hc
        omega
      exact add_ne_dup_of_fresh c ep step4Items (step4_fresh c hrec)
  · intro hc
    rw [step4Run, if_pos hc]
  · intro h
    rw [step4Run] at h
    by_cases hc : 0 < c.count
    · rw [if_pos hc] at h
      cases h
      rw [step4Run, if_pos hc]
    · rw [if_neg hc] at h
      have hcount := add_count_aux c ep step4Items c' h
      have hlen : step4Items.length = 3 := rfl
      rw [step4Run, if_pos (by omega)]
  · rw [step6Run]
    by_cases hc : c.count = 0
    · rw [if_pos (by simp [hc])]
      have hrec : c.records = [] := by
        rw [← List.length_eq_zero]
        simpa [Collection.count] using hc
      exact add_ne_dup_of_fresh c ep step6Items (step6_fresh c hrec)
    · rw [if_neg (by simp [hc])]
      intro hcon; cases hcon
  · intro hc
    rw [step6Run, if_neg (by simp; omega)]
  · intro h
    rw [step6Run] at h
    by_cases hc : c.count = 0
    · rw [if_pos (by simp [hc])] at h
      have hcount := add_count_aux c ep step6Items c' h
      have hlen : step6Items.length = 3 := rfl
      rw [step6Run, if_neg (by simp; omega)]
    · rw [if_neg (by simp [hc])] at h
      cases h
      rw [step6Run, if_neg (by simp [hc])]

theorem seed_guard_witness :
    step4Run epOne ⟨"p", some 1, [], [⟨"a", some "d", [1], []⟩]⟩ =
        .ok ⟨"p", some 1, [], [⟨"a", some "d", [1], []⟩]⟩ ∧
      step6Run epOne ⟨"p", some 1, [], [⟨"a", some "d", [1], []⟩]⟩ =
        .ok ⟨"p", some 1, [], [⟨"a", some "d", [1], []⟩]⟩ :=
  ⟨(seed_guard epOne ⟨"p", some 1, [], [⟨"a", some "d", [1], []⟩]⟩
      ⟨"p", some 1, [], [⟨"a", some "d", [1], []⟩]⟩).2.1 (by decide),
   (seed_guard epOne ⟨"p", some 1, [], [⟨"a", some "d", [1], []⟩]⟩
      ⟨"p", some 1, [], [⟨"a", some "d", [1], []⟩]⟩).2.2.2.2.1 (by decide)⟩

theorem embedAll_cons (ep : EmbedFn) (t : String) (ts : List String)
    (vs : List Vec) (h : embedAll ep (t :: ts) = some vs) :
    ∃ v vrest, ep t = some v ∧ embedAll ep ts = some vrest ∧ vs = v :: vrest := by
  rw [embedAll] at h
  cases h1 : ep t with
  | none => rw [h1] at h; simp at h
  | some v =>
    rw [h1] at h
    cases h2 : embedAll ep ts with
    | none => rw [h2] at h; simp at h
    | some vrest =>
      rw [h2] at h
      simp only [Option.some.injEq] at h
      exact ⟨v, vrest, rfl, rfl, h.symm⟩

theorem addVecs_cons_inv (c : Collection) (it : String × String × Metadata)
    (v : Vec) (rest : List ((String × String × Metadata) × Vec)) (c2 : Collection)
    (h : addVecs c ((it, v) :: rest) = .ok c2) :
    dimOk c.dim v = true ∧
      addVecs (c.insertFresh ⟨it.1, some it.2.1, v, it.2.2⟩) rest = .ok c2 := by
  rw [addVecs] at h
  by_cases hd : dimOk c.dim v = true
  · rw [if_pos hd] at h
    exact ⟨hd, h⟩
  · rw [if_neg hd] at h
    cases h

theorem addVecs_nil_inv (c c2 : Collection) (h : addVecs c [] = .ok c2) :
    c2 = c := by
  rw [addVecs] at h
  cases h
  rfl

theorem upsertLoop_single (ep : EmbedFn) (c : Collection)
    (x : String × Option String × Option Metadata) :
    upsertLoop ep c [x] = c.upsertOne ep x.1 x.2.1 x.2.2 := by
  unfold upsertLoop
  cases hu : c.upsertOne ep x.1 x.2.1 x.2.2 with
  | error e => rfl
  | ok c1 => rfl

theorem upsertOne_some_inv (c : Collection) (ep : EmbedFn) (i doc : String)
    (m : Metadata) (c2 : Collection)
    (h : c.upsertOne ep i (some doc) (some m) = .ok c2) :
    ∃ v, ep doc = some v ∧ dimOk c.dim v = true ∧
      ((∃ r0, c.findRecord i = some r0 ∧
         c2 = { c with records :=
                  (replaceRecord c.records i (fun _r => ⟨i, some doc, v, m⟩)) }) ∨
       (c.findRecord i = none ∧ c2 = c.insertFresh ⟨i, some doc, v, m⟩)) := by
  cases hf : c.findRecord i with
  | some r0 =>
    unfold Collection.upsertOne at h
    rw [hf] at h
    have h2 : (match ep doc with
      | none => (Except.error .EmbeddingProviderError : Except StoreError Collection)
      | some v =>
        if dimOk c.dim v = true then
          .ok { c with records :=
                  (replaceRecord c.records i (fun r => ⟨i, some doc, v, m⟩)) }
        else .error .DimensionMismatch) = .ok c2 := h
    clear h
    cases hv : ep doc with
    | none => rw [hv] at h2; cases h2
    | some v =>
      rw [hv] at h2
      have h3 : (if dimOk c.dim v = true then
          (Except.ok { c with records :=
            (replaceRecord c.records i (fun r => ⟨i, some doc, v, m⟩)) } :
            Except StoreError Collection)
        else .error .DimensionMismatch) = .ok c2 := h2
      clear h2
      by_cases hd : dimOk c.dim v = true
      · rw [if_pos hd] at h3
        cases h3
        exact ⟨v, rfl, hd, Or.inl ⟨r0, rfl, rfl⟩⟩
      · rw [if_neg hd] at h3
        cases h3
  | none =>
    unfold Collection.upsertOne at h
    rw [hf] at h
    have h2 : (match ep doc with
      | none => (Except.error .EmbeddingProviderError : Except StoreError Collection)
      | some v =>
        if dimOk c.dim v = true then .ok (c.insertFresh ⟨i, some doc, v, m⟩)
        else .error .DimensionMismatch) = .ok c2 := h
    clear h
    cases hv : ep doc with
    | none => rw [hv] at h2; cases h2
    | some v =>
      rw [hv] at h2
      have h3 : (if dimOk c.dim v = true then
          (Except.ok (c.insertFresh ⟨i, some doc, v, m⟩) :
            Except StoreError Collection)
        else .error .DimensionMismatch) = .ok c2 := h2
      clear h2
      by_cases hd : dimOk c.dim v = true
      · rw [if_pos hd] at h3
        cases h3
        exact ⟨v, rfl, hd, Or.inr ⟨rfl, rfl⟩⟩
      · rw [if_neg hd] at h3
        cases h3

/-- C10: running the step3 mutation sequence (add four documents, upsert
replacing hotel_policy_01, upsert inserting train_policy_01, delete
train_policy_01) on an initially empty travel_policies collection leaves the
collection containing exactly the ids flight_policy_01, hotel_policy_01,
rental_car_policy_01, flight_policy_02, with count() = 4. -/
theorem step3_final (ep : EmbedFn) (c' : Collection)
    (h : step3Run ep (Collection.mkEmpty "travel_policies" []) = .ok c') :
    c'.records.map Record.id =
      ["flight_policy_01", "hotel_policy_01", "rental_car_policy_01",
       "flight_policy_02"] ∧
    c'.count = 4 := by
  unfold step3Run at h
  split at h
  · cases h
  · rename_i c1 ha
    rw [Collection.add] at ha
    rw [show (!(freshIds (Collection.mkEmpty "travel_policies" [])
        (step3AddItems.map (fun it => it.1)))) = false from by
      simp [freshIds, Collection.hasId, Collection.mkEmpty, step3AddItems]] at ha
    simp only [Bool.false_eq_true, if_false] at ha
    split at ha
    · cases ha
    · rename_i vs heq
      simp only [step3AddItems, List.map_cons, List.map_nil] at heq
      obtain ⟨v1, vs1, hv1, heq1, hvs1⟩ := embedAll_cons ep _ _ _ heq
      subst hvs1
      obtain ⟨v2, vs2, hv2, heq2, hvs2⟩ := embedAll_cons ep _ _ _ heq1
      subst hvs2
      obtain ⟨v3, vs3, hv3, heq3, hvs3⟩ := embedAll_cons ep _ _ _ heq2
      subst hvs3
      obtain ⟨v4, vs4, hv4, heq4, hvs4⟩ := embedAll_cons ep _ _ _ heq3
      subst hvs4
      rw [embedAll] at heq4
      cases heq4
      simp only [step3AddItems, List.zip_cons_cons, List.zip_nil_left] at ha
      obtain ⟨hd1, ha⟩ := addVecs_cons_inv _ _ _ _ _ ha
      obtain ⟨hd2, ha⟩ := addVecs_cons_inv _ _ _ _ _ ha
      obtain ⟨hd3, ha⟩ := addVecs_cons_inv _ _ _ _ _ ha
      obtain ⟨hd4, ha⟩ := addVecs_cons_inv _ _ _ _ _ ha
      have hc1 := addVecs_nil_inv _ _ ha
      split at h
      · cases h
      · rename_i c2 hb
        split at h
        · cases h
        · rename_i c3 hc
          rw [upsertLoop_single] at hb
          simp only [step3UpsertHotel] at hb
          obtain ⟨vH, hvH, hdH, hcaseH⟩ := upsertOne_some_inv _ _ _ _ _ _ hb
          rcases hcaseH with ⟨r0, hf0, rfl⟩ | ⟨hf0, rfl⟩
          · rw [upsertLoop_single] at hc
            simp only [step3UpsertTrain] at hc
            obtain ⟨vT, hvT, hdT, hcaseT⟩ := upsertOne_some_inv _ _ _ _ _ _ hc
            rcases hcaseT with ⟨r1, hf1, rfl⟩ | ⟨hf1, rfl⟩
            · exfalso
              rw [hc1] at hf1
              simp [Collection.findRecord, Collection.insertFresh,
                Collection.mkEmpty, replaceRecord] at hf1
            · cases h
              constructor
              · simp [hc1, Collection.delete, Collection.insertFresh,
                  Collection.mkEmpty, replaceRecord]
              · simp [hc1, Collection.count, Collection.delete,
                  Collection.insertFresh, Collection.mkEmpty, replaceRecord]
          · exfalso
            rw [hc1] at hf0
            simp [Collection.findRecord, Collection.insertFresh,
              Collection.mkEmpty] at hf0

theorem step3_final_witness :
    ∃ c', step3Run epOne (Collection.mkEmpty "travel_policies" []) = .ok c' ∧
      (c'.records.map Record.id =
        ["flight_policy_01", "hotel_policy_01", "rental_car_policy_01",
         "flight_policy_02"] ∧
      c'.count = 4) :=
  ⟨_, rfl, step3_final epOne _ rfl⟩

end ChromaDemo
